import Mathlib

/-!
# Verification of the FIST content-moderation core

A shallow embedding, in Lean 4, of the decision pipeline of the FIST
content-moderation repository, together with theorems checking the
natural-language specification against it.

Embedded components (file references are to the repository source):
* `src/services/threshold_manager.py` — adaptive thresholds and decisions;
* `src/services/content_processor.py` — content-type detection, importance
  scoring and segmentation;
* `src/ai_connector.py` and `src/services.py` — classifier call and the
  risk-score → decision mapping;
* `src/batch_processor.py` — batch coordination and job cleanup;
* `src/ai/semantic_cache.py` — the semantic result cache.

Python `float` values are modelled as `ℚ`; Python dictionaries as
association lists keyed by `String`; wall-clock reads (`time.time()`,
`datetime.now()`) as explicit `now` parameters.  Library calls whose
internals are irrelevant to the checked claims (SHA-256 hex digests,
embedding vectors, cosine similarity on floats, `json.loads`) are taken
as parameters of the corresponding definitions.
-/

namespace Fist

/-! ## Text utilities

Character-level models of the Python string operations the core uses:
`str.split()`, `str.strip()`, `str.lower()`, and the specific regular
expressions appearing in `content_processor.py`, evaluated with
`re.findall`/`re.split` semantics (leftmost, non-overlapping, greedy,
alternatives tried left to right).  All content handled by the claims is
ASCII, and the model treats `\w`, `\s`, `\d`, case mapping at their
ASCII meaning.
-/

/-- `\w` at its ASCII meaning: letters, digits, underscore. -/
def isWordCh (c : Char) : Bool := c.isAlphanum || c = '_'

/-- `\s` at its ASCII meaning (Python whitespace for `str.split`). -/
def isWsCh (c : Char) : Bool :=
  c = ' ' || c = '\t' || c = '\n' || c = '\x0d' || c = '\x0b' || c = '\x0c'

/-- Characters matched by the class `[.!?]`. -/
def isSentPunct (c : Char) : Bool := c = '.' || c = '!' || c = '?'

/-- Helper for `pyWords`: accumulate the current word while scanning. -/
def splitWsAux : List Char → List Char → List (List Char)
  | [], acc => if acc.isEmpty then [] else [acc.reverse]
  | c :: cs, acc =>
    if isWsCh c then
      if acc.isEmpty then splitWsAux cs [] else acc.reverse :: splitWsAux cs []
    else splitWsAux cs (c :: acc)

/-- Python `text.split()`: split on whitespace runs, dropping empty pieces. -/
def pyWords (s : String) : List String := (splitWsAux s.data []).map String.mk

/-- `len(text.split())`. -/
def wordCount (s : String) : ℕ := (pyWords s).length

/-- Python `text.strip()`. -/
def pyStrip (s : String) : String :=
  String.mk (((s.data.dropWhile (isWsCh ·)).reverse.dropWhile (isWsCh ·)).reverse)

/-- Python `text.lower()` (ASCII case mapping). -/
def pyLower (s : String) : String := String.mk (s.data.map Char.toLower)

/-- Does the literal alternative `kw` match at the head of `cs`, with a
word boundary (`\b`) immediately after it?  (All alternatives used by the
source end in a word character, so the trailing `\b` holds exactly when
the next character is absent or not a word character.) -/
def altMatchesAt (kw : List Char) (cs : List Char) : Bool :=
  kw.isPrefixOf cs &&
    (match cs.drop kw.length with
     | [] => true
     | d :: _ => !isWordCh d)

/-- Count `re.findall` matches of a pattern `\b(alt₁|alt₂|…)\b` whose
alternatives each begin and end with a word character.  `prevW` records
whether the previous character was a word character (so that the leading
`\b` holds exactly when it is `false`).  Matches are non-overlapping and
alternatives are tried left to right, as in the `re` module. -/
def countKwFuel (alts : List (List Char)) : ℕ → List Char → Bool → ℕ
  | 0, _, _ => 0
  | _ + 1, [], _ => 0
  | fuel + 1, c :: cs, prevW =>
    if !prevW then
      match alts.find? (fun kw => altMatchesAt kw (c :: cs)) with
      | some kw => 1 + countKwFuel alts fuel ((c :: cs).drop kw.length) true
      | none => countKwFuel alts fuel cs (isWordCh c)
    else countKwFuel alts fuel cs (isWordCh c)

/-- Count matches of `\b(alt₁|…|altₙ)\b` in `s`. -/
def countKw (alts : List String) (s : List Char) : ℕ :=
  countKwFuel (alts.map String.data) s.length s false

/-- Count maximal runs of characters satisfying `p` whose length is at
least `minLen`: the match count of a greedy pattern such as `!{2,}` or,
under `re.IGNORECASE`, `[A-Z]{2,}`. -/
def countRunsGe (p : Char → Bool) (minLen : ℕ) : List Char → ℕ → ℕ
  | [], run => if minLen ≤ run then 1 else 0
  | c :: cs, run =>
    if p c then countRunsGe p minLen cs (run + 1)
    else (if minLen ≤ run then 1 else 0) + countRunsGe p minLen cs 0

/-- Count matches of a pattern `pre p+` (such as `#\w+`, `@\w+`, `\$\d+`):
a literal prefix character followed by a nonempty greedy run. -/
def countPreRunFuel (pre : Char) (p : Char → Bool) : ℕ → List Char → ℕ
  | 0, _ => 0
  | _ + 1, [] => 0
  | fuel + 1, c :: cs =>
    if c = pre && (match cs with | d :: _ => p d | [] => false) then
      1 + countPreRunFuel pre p fuel (cs.dropWhile p)
    else countPreRunFuel pre p fuel cs

/-- Does `\d{4}-\d{2}-\d{2}` match at the head of `cs`? -/
def dateAt (cs : List Char) : Bool :=
  (cs.take 4).length = 4 && (cs.take 4).all (·.isDigit) &&
  (cs.drop 4).take 1 = ['-'] &&
  ((cs.drop 5).take 2).length = 2 && ((cs.drop 5).take 2).all (·.isDigit) &&
  (cs.drop 7).take 1 = ['-'] &&
  ((cs.drop 8).take 2).length = 2 && ((cs.drop 8).take 2).all (·.isDigit)

/-- Count matches of `\d{4}-\d{2}-\d{2}` (a match consumes 10 characters). -/
def countDateFuel : ℕ → List Char → ℕ
  | 0, _ => 0
  | _ + 1, [] => 0
  | fuel + 1, c :: cs =>
    if dateAt (c :: cs) then 1 + countDateFuel fuel ((c :: cs).drop 10)
    else countDateFuel fuel cs

/-- Does `\d+/\d+\b` match at the head of `cs` (the leading `\b` being the
caller's concern), and if so how many characters does the match consume? -/
def ratioAt (cs : List Char) : Option ℕ :=
  let d1 := cs.takeWhile (·.isDigit)
  if d1.isEmpty then none
  else
    match cs.drop d1.length with
    | '/' :: rest =>
      let d2 := rest.takeWhile (·.isDigit)
      if d2.isEmpty then none
      else
        match rest.drop d2.length with
        | [] => some (d1.length + 1 + d2.length)
        | e :: _ => if isWordCh e then none else some (d1.length + 1 + d2.length)
    | _ => none

/-- Count matches of `\b\d+/\d+\b`. -/
def countRatioFuel : ℕ → List Char → Bool → ℕ
  | 0, _, _ => 0
  | _ + 1, [], _ => 0
  | fuel + 1, c :: cs, prevW =>
    if !prevW then
      match ratioAt (c :: cs) with
      | some k => 1 + countRatioFuel fuel ((c :: cs).drop k) true
      | none => countRatioFuel fuel cs (isWordCh c)
    else countRatioFuel fuel cs (isWordCh c)

/-- The backtick character (code point 96). -/
def backtickCh : Char := Char.ofNat 96

/-- Triple backtick, the fence of a Markdown code block. -/
def fence : List Char := [backtickCh, backtickCh, backtickCh]

/-- After an opening fence, find the closing fence: the number of
characters consumed through the end of the closing fence, if any
(the lazy body `[\s\S]*?` takes the nearest closing fence). -/
def closeFenceFuel : ℕ → List Char → Option ℕ
  | 0, _ => none
  | _ + 1, [] => none
  | fuel + 1, c :: cs =>
    if fence.isPrefixOf (c :: cs) then some 3
    else (closeFenceFuel fuel cs).map (· + 1)

/-- Count matches of the code-block pattern with three backticks, a lazy
body, and three closing backticks. -/
def countCodeBlockFuel : ℕ → List Char → ℕ
  | 0, _ => 0
  | _ + 1, [] => 0
  | fuel + 1, c :: cs =>
    if fence.isPrefixOf (c :: cs) then
      match closeFenceFuel ((c :: cs).drop 3).length ((c :: cs).drop 3) with
      | some k => 1 + countCodeBlockFuel fuel (((c :: cs).drop 3).drop k)
      | none => countCodeBlockFuel fuel cs
    else countCodeBlockFuel fuel cs

/-! ## Content patterns (`content_processor.py`, `self.content_patterns`)

Each regular expression of the pattern tables is represented by a `Pat`
constructor; `countPat` implements that pattern's `re.findall` count. -/

inductive Pat : Type
  | kws (alts : List String)
  | preWord (pre : Char)
  | preDigits (pre : Char)
  | datePat
  | ratioPat
  | qmark
  | codeBlock

/-- `len(re.findall(pattern, text_lower, re.IGNORECASE))` for one pattern. -/
def countPat (s : List Char) : Pat → ℕ
  | .kws alts => countKw alts s
  | .preWord pre => countPreRunFuel pre (isWordCh ·) s.length s
  | .preDigits pre => countPreRunFuel pre (·.isDigit) s.length s
  | .datePat => countDateFuel s.length s
  | .ratioPat => countRatioFuel s.length s false
  | .qmark => s.count '?'
  | .codeBlock => countCodeBlockFuel s.length s

/-! ## Content processor (`src/services/content_processor.py`) -/

inductive ContentType : Type
  | social_media | news_article | review | comment | question
  | promotional | technical | general
deriving DecidableEq, Repr

inductive SegmentationType : Type
  | semantic | structural | random | importance_based
deriving DecidableEq, Repr

structure ContentSegment where
  text : String
  start_position : ℕ
  end_position : ℕ
  importance_score : ℚ
  segment_type : String
  /-- metadata `sentence_count` set by the semantic segmenter. -/
  sentence_count : ℕ
  /-- metadata `selected_by_importance` set by the importance segmenter. -/
  selected_by_importance : Bool
deriving DecidableEq, Repr

structure ProcessingStrategy where
  segmentation_type : SegmentationType
  min_segment_length : ℕ
  max_segment_length : ℕ
  overlap_percentage : ℚ
  importance_threshold : ℚ
  preserve_structure : Bool
deriving DecidableEq, Repr

/-- `self.content_patterns`, in dictionary insertion order. -/
def content_patterns : List (ContentType × List Pat) :=
  [ (.social_media,
      [ .preWord '#'
      , .preWord '@'
      , .kws ["like", "share", "follow", "retweet", "rt"]
      , .kws ["lol", "omg", "wtf", "lmao", "rofl"] ])
  , (.news_article,
      [ .kws ["breaking", "update", "report", "announced"]
      , .datePat
      , .kws ["according to", "sources say", "reported"]
      , .kws ["journalist", "reporter", "correspondent"] ])
  , (.review,
      [ .kws ["rating", "stars", "review", "recommend"]
      , .ratioPat
      , .kws ["pros", "cons", "verdict", "overall"]
      , .kws ["would recommend", "not recommend"] ])
  , (.comment,
      [ .kws ["think", "opinion", "believe", "feel"]
      , .kws ["agree", "disagree", "exactly", "totally"]
      , .kws ["imho", "imo", "tbh", "honestly"] ])
  , (.question,
      [ .qmark
      , .kws ["how", "what", "why", "when", "where", "who"]
      , .kws ["help", "advice", "suggestion", "anyone know"]
      , .kws ["can someone", "does anyone"] ])
  , (.promotional,
      [ .kws ["buy", "sale", "discount", "offer", "deal"]
      , .preDigits '$'
      , .kws ["limited time", "act now", String.mk ['d','o','n','\'','t',' ','m','i','s','s']]
      , .kws ["free shipping", "money back"] ])
  , (.technical,
      [ .kws ["algorithm", "function", "variable", "code"]
      , .kws ["api", "sdk", "framework", "library"]
      , .kws ["debug", "compile", "execute", "deploy"]
      , .codeBlock ]) ]

/-- Total `re.findall` match count of one content type's pattern list on
the lowercased text. -/
def typeScore (lower : List Char) (pats : List Pat) : ℕ :=
  (pats.map (countPat lower)).sum

/-- Python `max(keys, key=score)`: the first key attaining the maximum
(later keys replace the current best only on a strictly greater score). -/
def maxByFirst (f : ContentType → ℚ) : List ContentType → ContentType → ContentType
  | [], best => best
  | t :: ts, best => maxByFirst f ts (if f t > f best then t else best)

/-- `IntelligentContentProcessor.detect_content_type`. -/
def detect_content_type (text : String) : ContentType × ℚ :=
  let lower := (pyLower text).data
  let wc : ℕ := wordCount text
  let scores : List (ContentType × ℚ) :=
    content_patterns.filterMap (fun tp =>
      let score := typeScore lower tp.2
      if score > 0 then
        some (tp.1, if wc = 0 then 0 else (score : ℚ) / (wc : ℚ))
      else none)
  match scores with
  | [] => (.general, 1/2)
  | (t0, _) :: rest =>
    let lookupScore : ContentType → ℚ := fun t =>
      ((scores.lookup t).getD 0)
    let best := maxByFirst lookupScore (rest.map Prod.fst) t0
    (best, min 1 (lookupScore best * 10))

/-- `self.importance_indicators`, flattened: (patterns, weight added per
match).  The patterns `[A-Z]{2,}` and `!{2,}` are run-counting; note that
`[A-Z]{2,}` is evaluated with `re.IGNORECASE` on the lowercased text, so
it counts every maximal run of two or more letters. -/
def highKwGroups : List (List String) :=
  [ ["important", "critical", "urgent", "warning"]
  , ["error", "failure", "problem", "issue"]
  , ["security", "privacy", "confidential"] ]

def mediumKwGroups : List (List String) :=
  [ ["note", "notice", "attention", "please"]
  , ["update", "change", "new", "latest"]
  , ["recommend", "suggest", "advise"] ]

def lowKwGroups : List (List String) :=
  [ ["maybe", "perhaps", "possibly", "might"]
  , ["optional", "additional", "extra"] ]

/-- `IntelligentContentProcessor.calculate_importance_score`. -/
def calculate_importance_score (text : String) : ℚ :=
  let lower := (pyLower text).data
  let high : ℕ :=
    (highKwGroups.map (fun g => countKw g lower)).sum
      + countRunsGe (·.isAlpha) 2 lower 0
      + countRunsGe (· = '!') 2 lower 0
  let med : ℕ := (mediumKwGroups.map (fun g => countKw g lower)).sum
  let low : ℕ := (lowKwGroups.map (fun g => countKw g lower)).sum
  let score : ℚ := 1/2 + (high : ℚ) * 0.3 + (med : ℚ) * 0.2 - (low : ℚ) * 0.1
  let wc := wordCount text
  let score := if wc < 5 then score * 0.7 else if wc > 50 then score * 0.8 else score
  max 0 (min 1 score)

/-- `re.split(r'[.!?]+\s+', text)`: split at each greedy match of a
punctuation run followed by a whitespace run. -/
def splitSentFuel : ℕ → List Char → List Char → List (List Char)
  | _, [], acc => [acc.reverse]
  | 0, cs, acc => [acc.reverse ++ cs]
  | fuel + 1, c :: rest, acc =>
    if isSentPunct c then
      let after := (c :: rest).dropWhile (isSentPunct ·)
      match after with
      | d :: _ =>
        if isWsCh d then
          acc.reverse :: splitSentFuel fuel (after.dropWhile (isWsCh ·)) []
        else splitSentFuel fuel rest (c :: acc)
      | [] => splitSentFuel fuel rest (c :: acc)
    else splitSentFuel fuel rest (c :: acc)

/-- The sentence list of `segment_content_semantic`: the regex split,
each piece stripped, empty pieces dropped. -/
def sentencesOf (text : String) : List String :=
  ((splitSentFuel text.data.length text.data []).map
      (fun cs => pyStrip (String.mk cs))).filter (· ≠ "")

/-- `len(re.split(r'[.!?]+', s))`: one more than the number of maximal
punctuation runs. -/
def sentenceCountMeta (s : String) : ℕ :=
  countRunsGe (isSentPunct ·) 1 s.data 0 + 1

/-- Build the `ContentSegment` that `segment_content_semantic` appends. -/
def mkSemSeg (txt : String) (start : ℕ) : ContentSegment :=
  { text := txt
  , start_position := start
  , end_position := start + txt.length
  , importance_score := calculate_importance_score txt
  , segment_type := "semantic"
  , sentence_count := sentenceCountMeta txt
  , selected_by_importance := false }

/-- The sentence-accumulation loop of `segment_content_semantic`:
state is (current segment text, start position). -/
def semAux (strat : ProcessingStrategy) :
    List String → String → ℕ → List ContentSegment
  | [], cur, start =>
    if cur ≠ "" ∧ strat.min_segment_length ≤ wordCount cur then
      [mkSemSeg cur start]
    else []
  | s :: rest, cur, start =>
    let potential := if cur = "" then s else cur ++ " " ++ s
    if wordCount potential ≤ strat.max_segment_length then
      semAux strat rest potential start
    else if strat.min_segment_length ≤ wordCount cur then
      mkSemSeg cur start :: semAux strat rest s (start + cur.length + 1)
    else
      semAux strat rest s start

/-- `IntelligentContentProcessor.segment_content_semantic`. -/
def segment_content_semantic (text : String) (strat : ProcessingStrategy) :
    List ContentSegment :=
  semAux strat (sentencesOf text) "" 0

/-- Stable insertion of `x` into a list sorted descending by `f`,
matching the stability of Python's `list.sort(key=…, reverse=True)`:
`x` (originally earlier) goes before elements of equal key. -/
def insertByDesc (f : α → ℚ) (x : α) : List α → List α
  | [] => [x]
  | y :: ys => if f y > f x then y :: insertByDesc f x ys else x :: y :: ys

/-- Stable sort, descending by `f`. -/
def sortByDesc (f : α → ℚ) : List α → List α
  | [] => []
  | x :: xs => insertByDesc f x (sortByDesc f xs)

/-- The in-place mutation applied to every selected segment at the end of
`segment_content_importance`. -/
def retagImportance (s : ContentSegment) : ContentSegment :=
  { s with segment_type := "importance_based", selected_by_importance := true }

/-- `IntelligentContentProcessor.segment_content_importance`. -/
def segment_content_importance (text : String) (strat : ProcessingStrategy) :
    List ContentSegment :=
  let sorted := sortByDesc (fun s => s.importance_score)
    (segment_content_semantic text strat)
  let important := sorted.filter
    (fun s => s.importance_score ≥ strat.importance_threshold)
  let chosen := if important.isEmpty then sorted.take 3 else important
  chosen.map retagImportance

/-! ## Threshold manager (`src/services/threshold_manager.py`)

The manager's decision-relevant state is its two `AdaptiveThreshold`
records (`self.thresholds`); the decision history and performance
metrics feed only the analytics endpoint and are not modelled.
`ThresholdDecision.reasoning` and `.context` (display strings / the
echoed context) are likewise omitted. -/

inductive ThresholdType : Type
  | rejection | manual_review | approval
deriving DecidableEq, Repr

inductive ContextFactor : Type
  | content_type | content_length | sentiment | topic
  | language | time_of_day | user_history | system_load
deriving DecidableEq, Repr

structure ThresholdAdjustment where
  factor : ContextFactor
  condition : String
  adjustment : ℚ
  reason : String
  confidence : ℚ
deriving DecidableEq, Repr

structure AdaptiveThreshold where
  base_value : ℚ
  min_value : ℚ
  max_value : ℚ
  current_value : ℚ
  last_updated : ℚ
deriving DecidableEq, Repr

structure ThresholdContext where
  content_type : String
  content_length : ℤ
  sentiment_score : ℚ
  sentiment_label : String
  primary_topic : String
  language : String
  time_of_day : ℤ
  user_risk_score : ℚ
  system_load : ℚ
deriving DecidableEq, Repr

/-- The `ThresholdContext()` dataclass defaults. -/
def defaultContext : ThresholdContext :=
  { content_type := "general"
  , content_length := 0
  , sentiment_score := 0
  , sentiment_label := "neutral"
  , primary_topic := "general"
  , language := "en"
  , time_of_day := 12
  , user_risk_score := 1/2
  , system_load := 1/2 }

structure ThresholdDecision where
  decision : String
  confidence : ℚ
  threshold_used : ℚ
  threshold_type : ThresholdType
  adjustments_applied : List ThresholdAdjustment
deriving DecidableEq, Repr

/-- The two adaptive thresholds held in `self.thresholds`. -/
structure ManagerState where
  rejection : AdaptiveThreshold
  manual_review : AdaptiveThreshold
deriving DecidableEq, Repr

/-- `DynamicThresholdManager.__init__` with the configuration defaults
(`core/config.py`: `REJECTION_THRESHOLD = 0.8`,
`MANUAL_REVIEW_THRESHOLD = 0.5`).  `last_updated` is the construction
instant, taken here as 0. -/
def initialManager : ManagerState :=
  { rejection :=
      { base_value := 0.8, min_value := 0.6, max_value := 0.95
      , current_value := 0.8, last_updated := 0 }
  , manual_review :=
      { base_value := 0.5, min_value := 0.3, max_value := 0.8
      , current_value := 0.5, last_updated := 0 } }

/-- Substring test on character lists. -/
def isInfixList (needle : List Char) : List Char → Bool
  | [] => needle.isEmpty
  | c :: cs => needle.isPrefixOf (c :: cs) || isInfixList needle cs

/-- Python `needle in haystack.lower()` on strings. -/
def containsLower (haystack needle : String) : Bool :=
  isInfixList needle.data (pyLower haystack).data

/-- `DynamicThresholdManager._evaluate_context_condition`. -/
def evaluate_context_condition (condition : String) (ctx : ThresholdContext) : Bool :=
  if condition = "social_media" then ctx.content_type = "social_media"
  else if condition = "news_article" then ctx.content_type = "news_article"
  else if condition = "promotional" then ctx.content_type = "promotional"
  else if condition = "technical" then ctx.content_type = "technical"
  else if condition = "very_short" then ctx.content_length < 20
  else if condition = "very_long" then ctx.content_length > 500
  else if condition = "very_negative" then ctx.sentiment_score < -0.7
  else if condition = "positive" then ctx.sentiment_score > 0.3
  else if condition = "politics" then containsLower ctx.primary_topic "politic"
  else if condition = "health" then
    containsLower ctx.primary_topic "health" || containsLower ctx.primary_topic "medical"
  else if condition = "entertainment" then containsLower ctx.primary_topic "entertainment"
  else if condition = "non_english" then ctx.language ≠ "en"
  else if condition = "night_hours" then ctx.time_of_day ≥ 22 ∨ ctx.time_of_day ≤ 6
  else if condition = "peak_hours" then 9 ≤ ctx.time_of_day ∧ ctx.time_of_day ≤ 17
  else if condition = "high_risk_user" then ctx.user_risk_score > 0.7
  else if condition = "trusted_user" then ctx.user_risk_score < 0.3
  else if condition = "high_load" then ctx.system_load > 0.8
  else if condition = "low_load" then ctx.system_load < 0.3
  else false

/-- `DynamicThresholdManager._initialize_adjustment_rules`, flattened in
dictionary insertion order (the iteration order of
`calculate_adjusted_threshold`).  Every rule is built with the
dataclass default `confidence = 1.0`. -/
def adjustment_rules : List ThresholdAdjustment :=
  [ ⟨.content_type, "social_media", -0.1,
      "Social media content tends to be more casual", 1⟩
  , ⟨.content_type, "news_article", 0.05,
      "News articles should maintain higher standards", 1⟩
  , ⟨.content_type, "promotional", 0.15,
      "Promotional content requires stricter moderation", 1⟩
  , ⟨.content_type, "technical", -0.05,
      "Technical content may use specialized language", 1⟩
  , ⟨.content_length, "very_short", 0.1,
      "Short content provides less context for analysis", 1⟩
  , ⟨.content_length, "very_long", -0.05,
      "Long content provides more context for analysis", 1⟩
  , ⟨.sentiment, "very_negative", 0.2,
      "Very negative sentiment increases moderation risk", 1⟩
  , ⟨.sentiment, "positive", -0.1,
      "Positive sentiment reduces moderation risk", 1⟩
  , ⟨.topic, "politics", 0.15,
      "Political content requires careful moderation", 1⟩
  , ⟨.topic, "health", 0.1,
      "Health information requires accuracy verification", 1⟩
  , ⟨.topic, "entertainment", -0.05,
      "Entertainment content is generally less risky", 1⟩
  , ⟨.language, "non_english", 0.1,
      "Non-English content may require specialized review", 1⟩
  , ⟨.time_of_day, "night_hours", 0.05,
      "Limited moderation staff during night hours", 1⟩
  , ⟨.time_of_day, "peak_hours", -0.05,
      "Full moderation staff available during peak hours", 1⟩
  , ⟨.user_history, "high_risk_user", 0.2,
      "User has history of problematic content", 1⟩
  , ⟨.user_history, "trusted_user", -0.1,
      "User has good moderation history", 1⟩
  , ⟨.system_load, "high_load", 0.1,
      "High system load requires more automated decisions", 1⟩
  , ⟨.system_load, "low_load", -0.05,
      "Low system load allows for more manual review", 1⟩ ]

/-- The rules whose condition matches the context (collected in rule
order into `applied_adjustments`). -/
def applied_adjustments (ctx : ThresholdContext) : List ThresholdAdjustment :=
  adjustment_rules.filter (fun r => evaluate_context_condition r.condition ctx)

/-- The total `Σ rule.adjustment * rule.confidence` over matching rules:
the amount `calculate_adjusted_threshold` adds before clamping.  It
depends only on the context, not on which threshold is being adjusted. -/
def adjustment_sum (ctx : ThresholdContext) : ℚ :=
  ((applied_adjustments ctx).map (fun r => r.adjustment * r.confidence)).sum

/-- `DynamicThresholdManager.calculate_adjusted_threshold` applied to one
`AdaptiveThreshold` record (the manager looks the record up in
`self.thresholds` first). -/
def calculate_adjusted_threshold (thr : AdaptiveThreshold) (ctx : ThresholdContext) :
    ℚ × List ThresholdAdjustment :=
  (max thr.min_value (min thr.max_value (thr.current_value + adjustment_sum ctx)),
   applied_adjustments ctx)

/-- `DynamicThresholdManager.make_threshold_decision` (the returned
`ThresholdDecision`; the decision-history append feeds analytics only). -/
def make_threshold_decision (st : ManagerState) (ai_score : ℚ)
    (ctx : ThresholdContext) : ThresholdDecision :=
  let rejection_threshold := (calculate_adjusted_threshold st.rejection ctx).1
  let rejection_adjustments := (calculate_adjusted_threshold st.rejection ctx).2
  let manual_threshold := (calculate_adjusted_threshold st.manual_review ctx).1
  let manual_adjustments := (calculate_adjusted_threshold st.manual_review ctx).2
  if ai_score ≥ rejection_threshold then
    { decision := "R"
    , confidence := min 1 ((ai_score - rejection_threshold) / (1 - rejection_threshold))
    , threshold_used := rejection_threshold
    , threshold_type := .rejection
    , adjustments_applied := rejection_adjustments }
  else if ai_score ≥ manual_threshold then
    { decision := "M"
    , confidence := min 1 ((ai_score - manual_threshold) / (rejection_threshold - manual_threshold))
    , threshold_used := manual_threshold
    , threshold_type := .manual_review
    , adjustments_applied := manual_adjustments }
  else
    { decision := "A"
    , confidence := min 1 ((manual_threshold - ai_score) / manual_threshold)
    , threshold_used := manual_threshold
    , threshold_type := .approval
    , adjustments_applied := manual_adjustments }

/-- One feedback record: `.get('predicted_decision')` and
`.get('actual_decision')` (absent keys give `None`). -/
structure FeedbackRecord where
  predicted : Option String
  actual : Option String
deriving DecidableEq, Repr

/-- `DynamicThresholdManager.update_thresholds_from_feedback` (the
threshold mutations; the performance-metric counters feed analytics
only).  `now` models the `time.time()` stamped into `last_updated`. -/
def update_thresholds_from_feedback (now : ℚ) (st : ManagerState)
    (feedback_data : List FeedbackRecord) : ManagerState :=
  if feedback_data.isEmpty then st
  else
    let false_positives : ℕ := (feedback_data.filter (fun f =>
      f.predicted = some "R" ∧ (f.actual = some "A" ∨ f.actual = some "M"))).length
    let false_negatives : ℕ := (feedback_data.filter (fun f =>
      f.predicted = some "A" ∧ (f.actual = some "R" ∨ f.actual = some "M"))).length
    let total : ℚ := feedback_data.length
    let false_positive_rate := (false_positives : ℚ) / total
    let false_negative_rate := (false_negatives : ℚ) / total
    let st :=
      if false_positive_rate > 0.1 then
        let adjustment := -0.05 * (false_positive_rate - 0.1)
        let new_value := max st.rejection.min_value
          (st.rejection.current_value + adjustment)
        { st with rejection :=
            { st.rejection with current_value := new_value, last_updated := now } }
      else st
    if false_negative_rate > 0.1 then
      let adjustment := -0.05 * (false_negative_rate - 0.1)
      let new_value := max st.manual_review.min_value
        (st.manual_review.current_value + adjustment)
      { st with manual_review :=
          { st.manual_review with current_value := new_value, last_updated := now } }
    else st

/-- Manager states reachable from construction by feedback-learning
updates (the only code path that mutates `current_value`). -/
inductive ReachableManager : ManagerState → Prop
  | init : ReachableManager initialManager
  | step {s : ManagerState} (now : ℚ) (fb : List FeedbackRecord) :
      ReachableManager s →
      ReachableManager (update_thresholds_from_feedback now s fb)

/-! ## AI connector (`src/ai_connector.py`) and basic decision
(`src/services.py`)

The OpenAI chat call is modelled by its observable outcome
(`TransportResult`): either the transport raised, or it returned
`response.choices[0].message.content` (an optional string).
`json.loads` is a parameter `parse`; a `.error` models a raised
`json.JSONDecodeError`, caught by the same `except` clause.  The parsed
JSON object is read downstream only through `.get` on the two keys
below, so it is modelled by the record `AIModResult` with optional
fields. -/

inductive TransportResult : Type
  | exn (msg : String)
  | ok (content : Option String)

structure AIModResult where
  inappropriate_probability : Option ℤ
  reason : Option String
deriving DecidableEq, Repr

/-- `AIConnector.moderate_content`. -/
def moderate_content (parse : String → Except String AIModResult) :
    TransportResult → AIModResult
  | .exn e =>
    { inappropriate_probability := some 100
    , reason := some ("Error processing content: " ++ e) }
  | .ok none =>
    { inappropriate_probability := some 100
    , reason := some "Empty response from AI model" }
  | .ok (some s) =>
    match parse s with
    | .error e =>
      { inappropriate_probability := some 100
      , reason := some ("Error processing content: " ++ e) }
    | .ok d => d

structure ProbThresholds where
  low : ℤ
  high : ℤ
deriving DecidableEq, Repr

/-- `Config.DEFAULT_PROBABILITY_THRESHOLDS = {"low": 20, "high": 80}`. -/
def default_probability_thresholds : ProbThresholds := ⟨20, 80⟩

/-- `ModerationService.analyze_result`: (final_decision, reason).  The
`probability_thresholds` argument defaults to
`default_probability_thresholds` at the call sites modelled here. -/
def analyze_result (ai_result : AIModResult) (pt : ProbThresholds) :
    String × String :=
  let inappropriate_prob := ai_result.inappropriate_probability.getD 50
  let ai_reason := ai_result.reason.getD "No reason provided"
  if inappropriate_prob ≤ pt.low then
    ("A", s!"Low risk ({inappropriate_prob}%): {ai_reason}")
  else if inappropriate_prob ≤ pt.high then
    ("M", s!"Medium risk ({inappropriate_prob}%): {ai_reason}")
  else
    ("R", s!"High risk ({inappropriate_prob}%): {ai_reason}")

/-! ## Batch processor (`src/batch_processor.py`)

A batch job run.  The per-item pipeline (`_process_single_item`, which
consults the cache and the moderation service and either returns a
response dictionary or re-raises) is abstracted by a parameter
`proc : ℕ → String → Except String α`: the outcome of item `index`.
The `ThreadPoolExecutor` completion order of `as_completed` is an
explicit parameter `order` (a permutation of the item indices); each
completed future writes its result into the pre-allocated slot at its
pre-assigned index and bumps the shared progress counters. -/

/-- The entry appended to `job_info["errors"]` for a failing item. -/
structure BatchErrorInfo where
  index : ℕ
  content_preview : String
  error : String
deriving DecidableEq, Repr

/-- `contents[index][:100] + "..." if len(contents[index]) > 100 else …`. -/
def contentPreview (s : String) : String :=
  if s.length > 100 then String.mk (s.data.take 100) ++ "..." else s

/-- One slot of the pre-allocated `results` list: a successful response
(which carries its `"index"` key) or the `{"error": …, "index": …}`
dictionary written on failure. -/
inductive SlotVal (α : Type) : Type
  | success (index : ℕ) (val : α)
  | failure (index : ℕ) (error : String)
deriving DecidableEq, Repr

/-- The fields of `job_info` the batch run mutates and the claims read. -/
structure JobInfo (α : Type) : Type where
  total_items : ℕ
  processed_items : ℕ
  status : String
  results : List (SlotVal α)
  errors : List BatchErrorInfo
deriving DecidableEq, Repr

/-- The slot value item `i` of `contents` produces. -/
def slotOf (proc : ℕ → String → Except String α) (contents : List String)
    (i : ℕ) : SlotVal α :=
  match proc i (contents.getD i "") with
  | .ok v => .success i v
  | .error e => .failure i e

/-- The `for future in as_completed(…)` loop: state is the pre-allocated
slot array together with the error list and progress counter of
`job_info`. -/
def batchLoop (proc : ℕ → String → Except String α) (contents : List String) :
    List ℕ → List (Option (SlotVal α)) × List BatchErrorInfo × ℕ →
    List (Option (SlotVal α)) × List BatchErrorInfo × ℕ
  | [], st => st
  | i :: rest, (slots, errs, processed) =>
    match proc i (contents.getD i "") with
    | .ok v =>
      batchLoop proc contents rest
        (slots.set i (some (.success i v)), errs, processed + 1)
    | .error e =>
      batchLoop proc contents rest
        (slots.set i (some (.failure i e)),
         errs ++ [⟨i, contentPreview (contents.getD i ""), e⟩],
         processed + 1)

/-- `BatchProcessor.process_batch_async` on a job fresh from
`create_batch_job`, for a completion order `order`: the resulting
`job_info`.  After the loop, `job_info["results"]` keeps only the slots
without an `"error"` key (`successful_results`), in slot order. -/
def process_batch_async (proc : ℕ → String → Except String α)
    (contents : List String) (order : List ℕ) : JobInfo α :=
  let n := contents.length
  let init : List (Option (SlotVal α)) := List.replicate n none
  let final := batchLoop proc contents order (init, [], 0)
  let successful := final.1.filterMap (fun s =>
    match s with
    | some (.success i v) => some (SlotVal.success i v)
    | _ => none)
  { total_items := n
  , processed_items := final.2.2
  , status := "completed"
  , results := successful
  , errors := final.2.1 }

/-- The `"index"` carried by a slot value. -/
def SlotVal.index : SlotVal α → ℕ
  | .success i _ => i
  | .failure i _ => i

/-- A job record as seen by `cleanup_old_jobs`. -/
structure BatchJobRecord where
  status : String
  completed_at : Option ℚ
deriving DecidableEq, Repr

/-- The first statement of `BatchProcessor.cleanup_old_jobs` evaluates
`datetime.now() - timedelta(hours=max_age_hours)`; `batch_processor.py`
imports only `datetime` from the `datetime` module and never imports
`timedelta`, so the name lookup raises before anything else runs. -/
def timedeltaHours (_hours : ℚ) : Except String ℚ :=
  .error "NameError: name 'timedelta' is not defined"

/-- `BatchProcessor.cleanup_old_jobs`: either the pair (number of jobs
removed, remaining `active_jobs` table) or the uncaught exception. -/
def cleanup_old_jobs (now : ℚ) (max_age_hours : ℚ)
    (active_jobs : List (String × BatchJobRecord)) :
    Except String (ℕ × List (String × BatchJobRecord)) := do
  let td ← timedeltaHours max_age_hours
  let cutoff_time := now - td
  let jobs_to_remove := (active_jobs.filter (fun kv =>
    (kv.2.status = "completed" || kv.2.status = "failed") &&
      match kv.2.completed_at with
      | some t => decide (t < cutoff_time)
      | none => false)).map Prod.fst
  let remaining := active_jobs.filter (fun kv => kv.1 ∉ jobs_to_remove)
  .ok (jobs_to_remove.length, remaining)

/-! ## Semantic cache (`src/ai/semantic_cache.py`)

`hkey` models `hashlib.sha256(….encode()).hexdigest()`, `embOf` models
`SimpleEmbeddingGenerator.generate_embedding`, and `sim` models
`calculate_similarity` (cosine similarity of float vectors); the store's
dictionaries are association lists.  `time.time()` is the explicit
`now`. -/

inductive CacheStrategy : Type
  | exact_match | semantic_similarity | hybrid | content_hash
deriving DecidableEq, Repr

inductive CacheStatus : Type
  | active | expired | invalidated | pending
deriving DecidableEq, Repr

structure CacheEntry (α : Type) : Type where
  cache_key : String
  content_hash : String
  original_content : String
  moderation_result : α
  /-- `embedding: Optional[List[float]]`; `[]`/`None` are both falsy at
  the only use site (`add_entry`), so both are modelled by `[]`. -/
  embedding : List ℚ
  similarity_threshold : ℚ
  created_at : ℚ
  last_accessed : ℚ
  access_count : ℕ
  ttl : ℚ
  status : CacheStatus
deriving DecidableEq, Repr

/-- `InMemoryVectorStore`: `entries` and `embeddings`. -/
structure VectorStore (α : Type) : Type where
  entries : List (String × CacheEntry α)
  embeddings : List (String × List ℚ)
deriving DecidableEq, Repr

/-- Python `d[k] = v`: replace the value at an existing key, else append. -/
def dictSet (k : String) (v : β) : List (String × β) → List (String × β)
  | [] => [(k, v)]
  | kv :: rest => if kv.1 = k then (k, v) :: rest else kv :: dictSet k v rest

/-- Python `d.get(k)`. -/
def dictGet (k : String) (l : List (String × β)) : Option β :=
  (l.find? (fun kv => kv.1 = k)).map Prod.snd

/-- `InMemoryVectorStore.add_entry`. -/
def add_entry (e : CacheEntry α) (st : VectorStore α) : VectorStore α :=
  { entries := dictSet e.cache_key e st.entries
  , embeddings :=
      if e.embedding.isEmpty then st.embeddings
      else dictSet e.cache_key e.embedding st.embeddings }

/-- `InMemoryVectorStore.remove_entry`. -/
def remove_entry (k : String) (st : VectorStore α) : VectorStore α :=
  { entries := st.entries.filter (fun kv => kv.1 ≠ k)
  , embeddings := st.embeddings.filter (fun kv => kv.1 ≠ k) }

/-- `InMemoryVectorStore.get_entry`. -/
def get_entry (k : String) (st : VectorStore α) : Option (CacheEntry α) :=
  dictGet k st.entries

/-- `InMemoryVectorStore.search_similar`: active entries with similarity
at least the threshold, best first, at most `limit` results. -/
def search_similar (sim : List ℚ → List ℚ → ℚ) (st : VectorStore α)
    (query_embedding : List ℚ) (similarity_threshold : ℚ) (limit : ℕ) :
    List (String × ℚ) :=
  let results := st.embeddings.filterMap (fun ke =>
    match dictGet ke.1 st.entries with
    | some e =>
      if e.status = .active ∧ sim query_embedding ke.2 ≥ similarity_threshold then
        some (ke.1, sim query_embedding ke.2)
      else none
    | none => none)
  (sortByDesc (fun r => r.2) results).take limit

/-- `SemanticCacheManager` defaults (`__init__`). -/
def default_similarity_threshold : ℚ := 0.85

def default_cache_ttl : ℚ := 3600

/-- `_generate_cache_key`. -/
def generate_cache_key (hkey : String → String) (content : String) :
    CacheStrategy → String
  | .content_hash => hkey (String.intercalate " " (pyWords (pyLower content)))
  | _ => hkey content

/-- The cache-hit record (the wall-clock `processing_time` measurement is
not modelled). -/
structure CacheHit (α : Type) : Type where
  hit : Bool
  cache_entry : Option (CacheEntry α)
  similarity_score : ℚ
  retrieval_method : String
deriving DecidableEq, Repr

/-- The read-path mutation of a returned entry:
`last_accessed = time.time(); access_count += 1`. -/
def bumpEntry (now : ℚ) (e : CacheEntry α) : CacheEntry α :=
  { e with last_accessed := now, access_count := e.access_count + 1 }

/-- Apply `bumpEntry` to the entry stored at `k`. -/
def bumpAt (now : ℚ) (k : String) (st : VectorStore α) : VectorStore α :=
  { st with entries :=
      st.entries.map (fun kv => if kv.1 = k then (kv.1, bumpEntry now kv.2) else kv) }

/-- The exact-match phase of `get_cached_result`: the stored entry under
the content's exact key, provided it is `ACTIVE`. -/
def exactLookup (hkey : String → String) (st : VectorStore α)
    (content : String) : Option (CacheEntry α) :=
  match get_entry (generate_cache_key hkey content .exact_match) st with
  | some e => if e.status = CacheStatus.active then some e else none
  | none => none

/-- The semantic phase of `get_cached_result`: the best similar entry
above the threshold, re-fetched and returned only if `ACTIVE`. -/
def semanticLookup (embOf : String → List ℚ) (sim : List ℚ → List ℚ → ℚ)
    (st : VectorStore α) (content : String) (thr : ℚ) :
    Option (String × ℚ × CacheEntry α) :=
  match search_similar sim st (embOf content) thr 1 with
  | (similar_key, similarity_score) :: _ =>
    match get_entry similar_key st with
    | some e =>
      if e.status = CacheStatus.active then
        some (similar_key, similarity_score, e)
      else none
    | none => none
  | [] => none

/-- `SemanticCacheManager.get_cached_result` (hit/miss analytics counters
omitted): the returned `CacheHit` and the store after the read-path
mutations. -/
def get_cached_result (hkey : String → String) (embOf : String → List ℚ)
    (sim : List ℚ → List ℚ → ℚ) (now : ℚ) (st : VectorStore α)
    (content : String) (strategy : CacheStrategy)
    (similarity_threshold : Option ℚ) : CacheHit α × VectorStore α :=
  match exactLookup hkey st content with
  | some e =>
    (⟨true, some (bumpEntry now e), 1, "exact_match"⟩,
     bumpAt now (generate_cache_key hkey content .exact_match) st)
  | none =>
    match
      (if strategy = .semantic_similarity ∨ strategy = .hybrid then
        semanticLookup embOf sim st content
          (similarity_threshold.getD default_similarity_threshold)
      else none) with
    | some (similar_key, similarity_score, e) =>
      (⟨true, some (bumpEntry now e), similarity_score, "semantic_similarity"⟩,
       bumpAt now similar_key st)
    | none => (⟨false, none, 0, "none"⟩, st)

/-- `SemanticCacheManager.store_result`: the new entry's key and the
store after `add_entry`. -/
def store_result (hkey : String → String) (embOf : String → List ℚ)
    (now : ℚ) (st : VectorStore α) (content : String) (moderation_result : α)
    (ttl : Option ℚ) (similarity_threshold : Option ℚ) :
    String × VectorStore α :=
  let ttlv := ttl.getD default_cache_ttl
  let thr := similarity_threshold.getD default_similarity_threshold
  let cache_key := generate_cache_key hkey content .exact_match
  let e : CacheEntry α :=
    { cache_key := cache_key
    , content_hash := hkey content
    , original_content := content
    , moderation_result := moderation_result
    , embedding := embOf content
    , similarity_threshold := thr
    , created_at := now
    , last_accessed := now
    , access_count := 0
    , ttl := ttlv
    , status := .active }
  (cache_key, add_entry e st)

/-- Is an entry picked up by the expiry sweep?  (`status == ACTIVE` and
`current_time - entry.created_at > entry.ttl`, strictly.) -/
def isExpiredAt (now : ℚ) (e : CacheEntry α) : Prop :=
  e.status = .active ∧ now - e.created_at > e.ttl

instance (now : ℚ) (e : CacheEntry α) : Decidable (isExpiredAt now e) := by
  unfold isExpiredAt; infer_instance

/-- `SemanticCacheManager._cleanup_expired_entries`: mark every active
entry older than its ttl as `EXPIRED`, then remove each collected key. -/
def cleanup_expired_entries (now : ℚ) (st : VectorStore α) : VectorStore α :=
  let expired_keys := (st.entries.filter (fun kv => isExpiredAt now kv.2)).map Prod.fst
  let marked : VectorStore α :=
    { st with entries := st.entries.map (fun kv =>
        if isExpiredAt now kv.2 then (kv.1, { kv.2 with status := .expired }) else kv) }
  expired_keys.foldl (fun s k => remove_entry k s) marked

/-! ## Theorems -/

/-- C1: on every classifier-call failure — a raised transport exception,
an empty (`None`) response, or a response `json.loads` cannot parse —
`AIConnector.moderate_content` returns `inappropriate_probability = 100`
with a reason citing the failure, and the downstream default decision
(`analyze_result` at the default probability thresholds) on such a
result is `"R"` (reject): content is never silently approved on
classifier failure. -/
theorem classifier_failure_fails_closed
    (parse : String → Except String AIModResult) (outcome : TransportResult)
    (hfail : (∃ e, outcome = .exn e) ∨ outcome = .ok none ∨
      (∃ s e, outcome = .ok (some s) ∧ parse s = .error e)) :
    (moderate_content parse outcome).inappropriate_probability = some 100 ∧
    ((moderate_content parse outcome).reason = some "Empty response from AI model" ∨
      ∃ e, (moderate_content parse outcome).reason
        = some ("Error processing content: " ++ e)) ∧
    (analyze_result (moderate_content parse outcome)
        default_probability_thresholds).1 = "R" := by
  rcases hfail with ⟨e, rfl⟩ | rfl | ⟨s, e, rfl, hp⟩
  · exact ⟨rfl, Or.inr ⟨e, rfl⟩, rfl⟩
  · exact ⟨rfl, Or.inl rfl, rfl⟩
  · refine ⟨?_, Or.inr ⟨e, ?_⟩, ?_⟩ <;>
      simp [moderate_content, hp, analyze_result, default_probability_thresholds]

/-- Witness for C1 at a concrete transport exception. -/
theorem classifier_failure_fails_closed_witness :
    (moderate_content (fun _ => .error "boom")
        (.exn "timeout")).inappropriate_probability = some 100 ∧
    (analyze_result (moderate_content (fun _ => .error "boom") (.exn "timeout"))
        default_probability_thresholds).1 = "R" := by
  have h := classifier_failure_fails_closed (fun _ => .error "boom")
    (.exn "timeout") (Or.inl ⟨"timeout", rfl⟩)
  exact ⟨h.1, h.2.2⟩

/-- C9: `BatchProcessor.cleanup_old_jobs` never completes: its first
statement evaluates `timedelta(hours=max_age_hours)`, and
`batch_processor.py` never imports `timedelta`, so every call raises
`NameError` before examining a single job. -/
theorem cleanup_old_jobs_always_raises (now max_age_hours : ℚ)
    (active_jobs : List (String × BatchJobRecord)) :
    cleanup_old_jobs now max_age_hours active_jobs
      = .error "NameError: name 'timedelta' is not defined" := rfl

/-- Severity order of the decision codes:
`APPROVE < MANUAL_REVIEW < REJECT`. -/
def decisionSeverity : String → ℕ
  | "M" => 1
  | "R" => 2
  | _ => 0

/-- C7: for a fixed manager state and context, the decision of
`make_threshold_decision` is non-decreasing in severity as the risk
score increases. -/
theorem decision_monotone_in_score (st : ManagerState) (ctx : ThresholdContext)
    (s1 s2 : ℚ) (h : s1 ≤ s2) :
    decisionSeverity (make_threshold_decision st s1 ctx).decision ≤
      decisionSeverity (make_threshold_decision st s2 ctx).decision := by
  unfold make_threshold_decision
  by_cases h1 : s1 ≥ (calculate_adjusted_threshold st.rejection ctx).1 <;>
    by_cases h2 : s2 ≥ (calculate_adjusted_threshold st.rejection ctx).1 <;>
    by_cases h3 : s1 ≥ (calculate_adjusted_threshold st.manual_review ctx).1 <;>
    by_cases h4 : s2 ≥ (calculate_adjusted_threshold st.manual_review ctx).1 <;>
    simp only [h1, h2, h3, h4, if_true, if_false, ite_true, ite_false,
      decisionSeverity] <;>
    first
      | rfl
      | omega
      | (exfalso; linarith)
      | simp [decisionSeverity]

/-- Witness for C7 at concrete scores 0.3 ≤ 0.9. -/
theorem decision_monotone_in_score_witness :
    (0.3 : ℚ) ≤ 0.9 ∧
    decisionSeverity (make_threshold_decision initialManager 0.3 defaultContext).decision ≤
      decisionSeverity (make_threshold_decision initialManager 0.9 defaultContext).decision :=
  ⟨by norm_num, decision_monotone_in_score initialManager defaultContext 0.3 0.9 (by norm_num)⟩

/-- The region of manager states feedback learning can reach: the bound
fields never move, the rejection value stays in `[0.6, 0.8]` (it starts
at 0.8 and is only ever lowered, clamped at 0.6) and the manual-review
value stays in `[0.3, 0.5]`. -/
def managerInvariant (s : ManagerState) : Prop :=
  s.rejection.min_value = 0.6 ∧ s.rejection.max_value = 0.95 ∧
  s.manual_review.min_value = 0.3 ∧ s.manual_review.max_value = 0.8 ∧
  0.6 ≤ s.rejection.current_value ∧ s.rejection.current_value ≤ 0.8 ∧
  0.3 ≤ s.manual_review.current_value ∧ s.manual_review.current_value ≤ 0.5

lemma managerInvariant_init : managerInvariant initialManager := by
  unfold managerInvariant initialManager
  norm_num

/-- A clamped-below downward move stays inside `[lo, hi]`. -/
lemma clamped_lower_step (lo cur x hi : ℚ) (hlo : lo ≤ hi) (hcur : cur ≤ hi)
    (hx : x ≤ 0) : lo ≤ max lo (cur + x) ∧ max lo (cur + x) ≤ hi :=
  ⟨le_max_left _ _, max_le hlo (by linarith)⟩

lemma managerInvariant_step (now : ℚ) (s : ManagerState)
    (fb : List FeedbackRecord) (h : managerInvariant s) :
    managerInvariant (update_thresholds_from_feedback now s fb) := by
  obtain ⟨h1, h2, h3, h4, h5, h6, h7, h8⟩ := h
  simp only [update_thresholds_from_feedback]
  split_ifs with hemp hn hp hp2 <;>
    [ exact ⟨h1, h2, h3, h4, h5, h6, h7, h8⟩
    ; skip
    ; skip
    ; skip
    ; exact ⟨h1, h2, h3, h4, h5, h6, h7, h8⟩ ]
  · -- false-negative rate high, false-positive rate high: both updated
    refine ⟨h1, h2, h3, h4, ?_, ?_, ?_, ?_⟩
    · rw [h1]; exact le_max_left _ _
    · rw [h1]
      exact (clamped_lower_step 0.6 s.rejection.current_value _ 0.8
        (by norm_num) h6 (by linarith)).2
    · rw [h3]; exact le_max_left _ _
    · rw [h3]
      exact (clamped_lower_step 0.3 s.manual_review.current_value _ 0.5
        (by norm_num) h8 (by linarith)).2
  · -- false-negative rate high only: manual-review updated
    refine ⟨h1, h2, h3, h4, h5, h6, ?_, ?_⟩
    · rw [h3]; exact le_max_left _ _
    · rw [h3]
      exact (clamped_lower_step 0.3 s.manual_review.current_value _ 0.5
        (by norm_num) h8 (by linarith)).2
  · -- false-positive rate high only: rejection updated
    refine ⟨h1, h2, h3, h4, ?_, ?_, h7, h8⟩
    · rw [h1]; exact le_max_left _ _
    · rw [h1]
      exact (clamped_lower_step 0.6 s.rejection.current_value _ 0.8
        (by norm_num) h6 (by linarith)).2

/-- Every reachable manager state satisfies the invariant. -/
lemma managerInvariant_reachable {s : ManagerState}
    (h : ReachableManager s) : managerInvariant s := by
  induction h with
  | init => exact managerInvariant_init
  | step now fb _ ih => exact managerInvariant_step now _ fb ih

/-- The clamp `max lo (min hi x)` lies in `[lo, hi]` whenever `lo ≤ hi`. -/
lemma clamp_mem (lo hi x : ℚ) (h : lo ≤ hi) :
    lo ≤ max lo (min hi x) ∧ max lo (min hi x) ≤ hi :=
  ⟨le_max_left _ _, max_le h (min_le_left _ _)⟩

/-- C6: along every sequence of feedback-learning updates,
`min_value ≤ current_value ≤ max_value` holds for both adaptive
thresholds after every mutation, and every context-adjusted threshold
value computed for the decision logic also lies within those bounds
(the clamp is applied on every read; no bound violation is ever
raised). -/
theorem adaptive_threshold_bounds (s : ManagerState) (h : ReachableManager s) :
    (s.rejection.min_value ≤ s.rejection.current_value ∧
      s.rejection.current_value ≤ s.rejection.max_value) ∧
    (s.manual_review.min_value ≤ s.manual_review.current_value ∧
      s.manual_review.current_value ≤ s.manual_review.max_value) ∧
    ∀ ctx : ThresholdContext,
      (s.rejection.min_value ≤ (calculate_adjusted_threshold s.rejection ctx).1 ∧
        (calculate_adjusted_threshold s.rejection ctx).1 ≤ s.rejection.max_value) ∧
      (s.manual_review.min_value ≤ (calculate_adjusted_threshold s.manual_review ctx).1 ∧
        (calculate_adjusted_threshold s.manual_review ctx).1 ≤ s.manual_review.max_value) := by
  obtain ⟨h1, h2, h3, h4, h5, h6, h7, h8⟩ := managerInvariant_reachable h
  refine ⟨⟨?_, ?_⟩, ⟨?_, ?_⟩, fun ctx => ⟨?_, ?_⟩⟩
  · rw [h1]; exact h5
  · rw [h2]; linarith
  · rw [h3]; exact h7
  · rw [h4]; linarith
  · unfold calculate_adjusted_threshold
    rw [h1, h2]
    exact clamp_mem 0.6 0.95 _ (by norm_num)
  · unfold calculate_adjusted_threshold
    rw [h3, h4]
    exact clamp_mem 0.3 0.8 _ (by norm_num)

/-- Witness for C6 at the freshly constructed manager. -/
theorem adaptive_threshold_bounds_witness :
    initialManager.rejection.min_value ≤ initialManager.rejection.current_value ∧
    (calculate_adjusted_threshold initialManager.rejection defaultContext).1
      ≤ initialManager.rejection.max_value := by
  have h := adaptive_threshold_bounds initialManager ReachableManager.init
  exact ⟨h.1.1, ((h.2.2 defaultContext).1).2⟩

/-- C10: in every reachable manager state (default base thresholds 0.8
and 0.5) and for every context, the context-adjusted rejection threshold
is strictly greater than the context-adjusted manual-review threshold —
the same adjustment sum is added to both before clamping — and none of
the three confidence divisors of `make_threshold_decision`
(`1 - rejectionThr`, `rejectionThr - manualThr`, `manualThr`) is zero. -/
theorem adjusted_thresholds_ordered (s : ManagerState) (h : ReachableManager s)
    (ctx : ThresholdContext) :
    (calculate_adjusted_threshold s.manual_review ctx).1
        < (calculate_adjusted_threshold s.rejection ctx).1 ∧
    1 - (calculate_adjusted_threshold s.rejection ctx).1 ≠ 0 ∧
    (calculate_adjusted_threshold s.rejection ctx).1
        - (calculate_adjusted_threshold s.manual_review ctx).1 ≠ 0 ∧
    (calculate_adjusted_threshold s.manual_review ctx).1 ≠ 0 := by
  obtain ⟨h1, h2, h3, h4, h5, h6, h7, h8⟩ := managerInvariant_reachable h
  unfold calculate_adjusted_threshold
  rw [h1, h2, h3, h4]
  set S := adjustment_sum ctx with hS
  set r := s.rejection.current_value with hr
  set m := s.manual_review.current_value with hm
  have key : max 0.3 (min 0.8 (m + S)) < max 0.6 (min 0.95 (r + S)) := by
    rcases min_cases (0.8 : ℚ) (m + S) with ⟨he, hc⟩ | ⟨he, hc⟩
    · -- manual clamped at its max 0.8, so r + S ≥ 0.9
      have hx : (0.9 : ℚ) ≤ min 0.95 (r + S) := le_min (by norm_num) (by linarith)
      have : (0.9 : ℚ) ≤ max 0.6 (min 0.95 (r + S)) :=
        le_trans hx (le_max_right _ _)
      have hm8 : max (0.3 : ℚ) (min 0.8 (m + S)) = 0.8 := by
        rw [he]; exact max_eq_right (by norm_num)
      rw [hm8]; linarith
    · rw [he]
      rcases max_cases (0.3 : ℚ) (m + S) with ⟨he2, hc2⟩ | ⟨he2, hc2⟩
      · -- manual clamped at its min 0.3 < 0.6 ≤ rejection
        rw [he2]
        calc (0.3 : ℚ) < 0.6 := by norm_num
        _ ≤ max 0.6 (min 0.95 (r + S)) := le_max_left _ _
      · rw [he2]
        rcases min_cases (0.95 : ℚ) (r + S) with ⟨he3, hc3⟩ | ⟨he3, hc3⟩
        · have : m + S < 0.95 := by linarith
          rw [he3]
          calc m + S ≤ 0.8 := le_of_lt hc
          _ < 0.95 := by norm_num
          _ ≤ max 0.6 (0.95 : ℚ) := le_max_right _ _
        · rw [he3]
          have : m + S < r + S := by linarith
          exact lt_of_lt_of_le this (le_max_right _ _)
  have hle : max (0.6 : ℚ) (min 0.95 (r + S)) ≤ 0.95 :=
    max_le (by norm_num) (min_le_left _ _)
  have hge : (0.3 : ℚ) ≤ max 0.3 (min 0.8 (m + S)) := le_max_left _ _
  refine ⟨key, ?_, ?_, ?_⟩
  · intro hz; nlinarith
  · intro hz; nlinarith
  · intro hz; nlinarith

/-- Witness for C10 at the initial manager and the default context. -/
theorem adjusted_thresholds_ordered_witness :
    (calculate_adjusted_threshold initialManager.manual_review defaultContext).1
      < (calculate_adjusted_threshold initialManager.rejection defaultContext).1 :=
  (adjusted_thresholds_ordered initialManager ReachableManager.init defaultContext).1

/-- The scenario content of the spec's §8 testable property. -/
def promoScenarioText : String := "Buy now!!! Limited time offer $99 CLICK HERE"

/-- A threshold context built for the scenario content: content type as
detected (`promotional`), content length its word count (8), all other
fields the dataclass defaults; the hour of day (`datetime.now().hour` in
`get_threshold_context_from_analysis`) is left free. -/
def promoScenarioContext (hour : ℤ) : ThresholdContext :=
  { defaultContext with
      content_type := "promotional", content_length := 8, time_of_day := hour }

/-- On the scenario context the matching rules are `promotional` (+0.15),
`very_short` (+0.1), and the hour rule; the adjustment sum is between
0.2 and 0.3 whatever the hour. -/
lemma promo_sum_bounds (hour : ℤ) :
    0.2 ≤ adjustment_sum (promoScenarioContext hour) ∧
      adjustment_sum (promoScenarioContext hour) ≤ 0.3 := by
  have c1 : containsLower "general" "politic" = false := by decide
  have c2 : containsLower "general" "health" = false := by decide
  have c3 : containsLower "general" "medical" = false := by decide
  have c4 : containsLower "general" "entertainment" = false := by decide
  by_cases hn : hour ≥ 22 ∨ hour ≤ 6
  · by_cases hp : 9 ≤ hour ∧ hour ≤ 17
    · exfalso; rcases hn with hn | hn <;> omega
    · have hs : adjustment_sum (promoScenarioContext hour) = 0.3 := by
        simp [adjustment_sum, applied_adjustments, adjustment_rules,
          evaluate_context_condition, promoScenarioContext, defaultContext,
          List.filter, c1, c2, c3, c4, hn, hp]
        norm_num
      rw [hs]; norm_num
  · by_cases hp : 9 ≤ hour ∧ hour ≤ 17
    · have hs : adjustment_sum (promoScenarioContext hour) = 0.2 := by
        simp [adjustment_sum, applied_adjustments, adjustment_rules,
          evaluate_context_condition, promoScenarioContext, defaultContext,
          List.filter, c1, c2, c3, c4, hn, hp]
        norm_num
      rw [hs]; norm_num
    · have hs : adjustment_sum (promoScenarioContext hour) = 0.25 := by
        simp [adjustment_sum, applied_adjustments, adjustment_rules,
          evaluate_context_condition, promoScenarioContext, defaultContext,
          List.filter, c1, c2, c3, c4, hn, hp]
        norm_num
      rw [hs]; norm_num

/-- With the default base thresholds and any context whose adjustment sum
lies in `[0.2, 0.3]`, a risk score of 0.9 lands strictly between the
manual-review threshold (≤ 0.8) and the rejection threshold (clamped at
its 0.95 upper bound): the decision is `"M"`. -/
lemma decision_M_of_sum (ctx : ThresholdContext)
    (h1 : 0.2 ≤ adjustment_sum ctx) (h2 : adjustment_sum ctx ≤ 0.3) :
    (make_threshold_decision initialManager 0.9 ctx).decision = "M" := by
  have hrt : (calculate_adjusted_threshold initialManager.rejection ctx).1 = 0.95 := by
    show max 0.6 (min 0.95 (0.8 + adjustment_sum ctx)) = 0.95
    rw [min_eq_left (by linarith), max_eq_right (by norm_num)]
  have hmt : (calculate_adjusted_threshold initialManager.manual_review ctx).1
      = 0.5 + adjustment_sum ctx := by
    show max 0.3 (min 0.8 (0.5 + adjustment_sum ctx)) = 0.5 + adjustment_sum ctx
    rw [min_eq_right (by linarith), max_eq_right (by linarith)]
  unfold make_threshold_decision
  rw [hrt, hmt, if_neg (by norm_num), if_pos (by linarith)]

/-- C3 (counterexample): on the scenario content,
`detect_content_type` does return `promotional`, but with the default
base thresholds (0.8 / 0.5) and risk score 0.9 the decision on a context
built for that content (noon) is not `REJECT`: the `promotional` (+0.15)
and `very_short` (+0.1) adjustments push the rejection threshold to its
0.95 clamp, above 0.9. -/
theorem promo_scenario_not_reject :
    (detect_content_type promoScenarioText).1 = ContentType.promotional ∧
    (make_threshold_decision initialManager 0.9 (promoScenarioContext 12)).decision ≠ "R" := by
  constructor
  · decide
  · have h := decision_M_of_sum (promoScenarioContext 12)
      (promo_sum_bounds 12).1 (promo_sum_bounds 12).2
    rw [h]; decide

/-- C3 (amended): on the scenario content `detect_content_type` returns
`promotional`, and with the default base thresholds and risk score 0.9
the decision on a context built for that content is `MANUAL_REVIEW`,
whatever the hour of day. -/
theorem promo_scenario_manual_review (hour : ℤ) :
    (detect_content_type promoScenarioText).1 = ContentType.promotional ∧
    (make_threshold_decision initialManager 0.9 (promoScenarioContext hour)).decision = "M" :=
  ⟨by decide,
   decision_M_of_sum (promoScenarioContext hour)
     (promo_sum_bounds hour).1 (promo_sum_bounds hour).2⟩

lemma insertByDesc_perm (f : α → ℚ) (x : α) (l : List α) :
    (insertByDesc f x l).Perm (x :: l) := by
  induction l with
  | nil => exact List.Perm.refl _
  | cons y ys ih =>
    unfold insertByDesc
    by_cases hc : f y > f x
    · rw [if_pos hc]
      exact (ih.cons y).trans (List.Perm.swap x y ys)
    · rw [if_neg hc]

lemma sortByDesc_perm (f : α → ℚ) (l : List α) : (sortByDesc f l).Perm l := by
  induction l with
  | nil => exact List.Perm.refl _
  | cons x xs ih =>
    exact (insertByDesc_perm f x (sortByDesc f xs)).trans (ih.cons x)

lemma pairwise_insertByDesc (f : α → ℚ) (x : α) (l : List α)
    (h : l.Pairwise (fun a b => f b ≤ f a)) :
    (insertByDesc f x l).Pairwise (fun a b => f b ≤ f a) := by
  induction l with
  | nil => simp [insertByDesc]
  | cons y ys ih =>
    rw [List.pairwise_cons] at h
    obtain ⟨hy, hys⟩ := h
    unfold insertByDesc
    by_cases hc : f y > f x
    · rw [if_pos hc]
      rw [List.pairwise_cons]
      refine ⟨?_, ih hys⟩
      intro b hb
      rcases List.mem_cons.mp ((insertByDesc_perm f x ys).mem_iff.mp hb) with rfl | hb2
      · exact le_of_lt hc
      · exact hy b hb2
    · rw [if_neg hc]
      rw [List.pairwise_cons]
      refine ⟨?_, List.pairwise_cons.mpr ⟨hy, hys⟩⟩
      intro b hb
      rcases List.mem_cons.mp hb with rfl | hb2
      · exact not_lt.mp hc
      · exact le_trans (hy b hb2) (not_lt.mp hc)

lemma pairwise_sortByDesc (f : α → ℚ) (l : List α) :
    (sortByDesc f l).Pairwise (fun a b => f b ≤ f a) := by
  induction l with
  | nil => simp [sortByDesc]
  | cons x xs ih => exact pairwise_insertByDesc f x (sortByDesc f xs) ih

/-- C5 (amended): importance-based segmentation returns (retagged as
`importance_based`) exactly the semantic segments whose importance
reaches the strategy's threshold; when none qualifies it returns the
`min 3 n` highest-importance semantic segments — up to three, not one. -/
theorem importance_segmentation_selection (text : String) (strat : ProcessingStrategy) :
    (((segment_content_semantic text strat).filter
        (fun s => s.importance_score ≥ strat.importance_threshold)) ≠ [] →
      (segment_content_importance text strat).Perm
        (((segment_content_semantic text strat).filter
            (fun s => s.importance_score ≥ strat.importance_threshold)).map
          retagImportance)) ∧
    (((segment_content_semantic text strat).filter
        (fun s => s.importance_score ≥ strat.importance_threshold)) = [] →
      (segment_content_importance text strat).length
          = min 3 (segment_content_semantic text strat).length ∧
      (∀ s ∈ segment_content_importance text strat,
        ∃ u ∈ segment_content_semantic text strat, retagImportance u = s) ∧
      (∀ s ∈ segment_content_importance text strat,
        ∀ u ∈ segment_content_semantic text strat,
          u.importance_score ≤ s.importance_score ∨
            retagImportance u ∈ segment_content_importance text strat)) := by
  set segs := segment_content_semantic text strat with hsegs
  set f : ContentSegment → ℚ := fun s => s.importance_score with hf
  set p : ContentSegment → Bool :=
    fun s => s.importance_score ≥ strat.importance_threshold with hp
  have hperm : (sortByDesc f segs).Perm segs := sortByDesc_perm f segs
  have hfperm : ((sortByDesc f segs).filter p).Perm (segs.filter p) := hperm.filter p
  constructor
  · intro hne
    have hne' : (sortByDesc f segs).filter p ≠ [] := by
      intro h0
      exact hne (List.eq_nil_of_length_eq_zero
        (by rw [← hfperm.length_eq, h0]; rfl))
    have : segment_content_importance text strat
        = ((sortByDesc f segs).filter p).map retagImportance := by
      unfold segment_content_importance
      rw [← hsegs]
      have : ((sortByDesc f segs).filter p).isEmpty = false := by
        cases h : (sortByDesc f segs).filter p with
        | nil => exact absurd h hne'
        | cons a l => rfl
      simp only [← hf, ← hp, this, Bool.false_eq_true, if_false]
    rw [this]
    exact hfperm.map retagImportance
  · intro hnil
    have hnil' : (sortByDesc f segs).filter p = [] :=
      List.eq_nil_of_length_eq_zero (by rw [hfperm.length_eq, hnil]; rfl)
    have hres : segment_content_importance text strat
        = ((sortByDesc f segs).take 3).map retagImportance := by
      unfold segment_content_importance
      rw [← hsegs]
      simp only [← hf, ← hp, hnil', List.isEmpty_nil, if_true]
    refine ⟨?_, ?_, ?_⟩
    · rw [hres, List.length_map, List.length_take, hperm.length_eq]
    · intro s hs
      rw [hres] at hs
      obtain ⟨u, hu, rfl⟩ := List.mem_map.mp hs
      exact ⟨u, hperm.mem_iff.mp (List.mem_of_mem_take hu), rfl⟩
    · intro s hs u hu
      rw [hres] at hs
      obtain ⟨u', hu', rfl⟩ := List.mem_map.mp hs
      have husort : u ∈ sortByDesc f segs := hperm.mem_iff.mpr hu
      have hsplit := List.take_append_drop 3 (sortByDesc f segs)
      rcases List.mem_append.mp (by rw [hsplit]; exact husort) with htk | hdr
      · right
        rw [hres]
        exact List.mem_map.mpr ⟨u, htk, rfl⟩
      · left
        have hpw := pairwise_sortByDesc f segs
        rw [← hsplit, List.pairwise_append] at hpw
        exact hpw.2.2 u' hu' u hdr

/-- A strategy under which some texts produce several semantic segments,
none reaching the importance threshold. -/
def impStrategy : ProcessingStrategy :=
  { segmentation_type := .semantic
  , min_segment_length := 1
  , max_segment_length := 2
  , overlap_percentage := 0
  , importance_threshold := 0.6
  , preserve_structure := true }

def impText : String := "a b. c d. e f."

/-- C5 (counterexample): on `"a b. c d. e f."` with the strategy above,
no semantic segment reaches the importance threshold (each scores 0.35),
yet importance-based segmentation returns three segments, not the single
highest-importance one. -/
theorem importance_fallback_counterexample :
    (∀ s ∈ segment_content_semantic impText impStrategy,
      s.importance_score < impStrategy.importance_threshold) ∧
    (segment_content_importance impText impStrategy).length = 3 := by
  constructor
  · with_unfolding_all decide
  · with_unfolding_all decide

/-- The error entry produced by a failing item, if any. -/
def errOf (proc : ℕ → String → Except String α) (contents : List String)
    (i : ℕ) : Option BatchErrorInfo :=
  match proc i (contents.getD i "") with
  | .ok _ => none
  | .error e => some ⟨i, contentPreview (contents.getD i ""), e⟩

/-- Unrolling the completion loop: slots are written by index-directed
sets, error entries are appended in completion order, the progress
counter increments once per completed item. -/
lemma batchLoop_spec (proc : ℕ → String → Except String α) (contents : List String)
    (order : List ℕ) (slots : List (Option (SlotVal α)))
    (errs : List BatchErrorInfo) (processed : ℕ) :
    (batchLoop proc contents order (slots, errs, processed)).1
        = order.foldl (fun sl i => sl.set i (some (slotOf proc contents i))) slots ∧
    (batchLoop proc contents order (slots, errs, processed)).2.1
        = errs ++ order.filterMap (errOf proc contents) ∧
    (batchLoop proc contents order (slots, errs, processed)).2.2
        = processed + order.length := by
  induction order generalizing slots errs processed with
  | nil => simp [batchLoop]
  | cons i rest ih =>
    unfold batchLoop
    cases hpi : proc i (contents.getD i "") with
    | ok v =>
      have hslot : slotOf proc contents i = .success i v := by
        unfold slotOf; rw [hpi]
      have herr : errOf proc contents i = none := by
        unfold errOf; rw [hpi]
      obtain ⟨ih1, ih2, ih3⟩ := ih (slots.set i (some (.success i v))) errs (processed + 1)
      refine ⟨?_, ?_, ?_⟩
      · rw [ih1]
        simp only [List.foldl_cons, hslot]
      · rw [ih2, List.filterMap_cons, herr]
      · rw [ih3, List.length_cons]
        omega
    | error e =>
      have hslot : slotOf proc contents i = .failure i e := by
        unfold slotOf; rw [hpi]
      have herr : errOf proc contents i
          = some ⟨i, contentPreview (contents.getD i ""), e⟩ := by
        unfold errOf; rw [hpi]
      obtain ⟨ih1, ih2, ih3⟩ := ih (slots.set i (some (.failure i e)))
        (errs ++ [⟨i, contentPreview (contents.getD i ""), e⟩]) (processed + 1)
      refine ⟨?_, ?_, ?_⟩
      · rw [ih1]
        simp only [List.foldl_cons, hslot]
      · rw [ih2, List.filterMap_cons, herr, List.append_assoc,
          List.singleton_append]
      · rw [ih3, List.length_cons]
        omega

lemma foldl_set_length (g : ℕ → β) (order : List ℕ) (slots : List β) :
    (order.foldl (fun sl j => sl.set j (g j)) slots).length = slots.length := by
  induction order generalizing slots with
  | nil => rfl
  | cons j rest ih => rw [List.foldl_cons, ih, List.length_set]

/-- Index-directed writes whose value depends only on the index are
idempotent and commute: the final slot at `i` is `g i` exactly when some
write targeted `i`. -/
lemma foldl_set_getElem? (g : ℕ → β) (order : List ℕ) (slots : List β) (i : ℕ) :
    (order.foldl (fun sl j => sl.set j (g j)) slots)[i]?
      = if i ∈ order ∧ i < slots.length then some (g i) else slots[i]? := by
  induction order generalizing slots with
  | nil => simp
  | cons j rest ih =>
    rw [List.foldl_cons, ih, List.length_set]
    by_cases hr : i ∈ rest ∧ i < slots.length
    · rw [if_pos hr, if_pos ⟨List.mem_cons_of_mem j hr.1, hr.2⟩]
    · rw [if_neg hr, List.getElem?_set]
      by_cases hj : j = i
      · subst hj
        by_cases hlen : j < slots.length
        · rw [if_pos rfl, if_pos hlen, if_pos ⟨List.mem_cons_self j rest, hlen⟩]
        · rw [if_pos rfl, if_neg hlen,
            if_neg (fun hc => hlen hc.2),
            List.getElem?_eq_none (Nat.le_of_not_lt hlen)]
      · rw [if_neg hj]
        have : ¬(i ∈ j :: rest ∧ i < slots.length) := by
          intro hc
          rcases List.mem_cons.mp hc.1 with h | h
          · exact hj h.symm
          · exact hr ⟨h, hc.2⟩
        rw [if_neg this]

/-- When the completion order covers every index exactly once, the final
slot array is the per-index outcome table. -/
lemma process_slots (proc : ℕ → String → Except String α) (contents : List String)
    (order : List ℕ) (hperm : order.Perm (List.range contents.length)) :
    (batchLoop proc contents order
        (List.replicate contents.length none, [], 0)).1
      = (List.range contents.length).map
          (fun i => some (slotOf proc contents i)) := by
  apply List.ext_getElem?
  intro k
  rw [(batchLoop_spec proc contents order _ _ _).1, foldl_set_getElem?,
    List.length_replicate]
  have hmem : k ∈ order ↔ k < contents.length := by
    rw [hperm.mem_iff, List.mem_range]
  by_cases hk : k < contents.length
  · rw [if_pos ⟨hmem.mpr hk, hk⟩, List.getElem?_map, List.getElem?_range hk]
    rfl
  · rw [if_neg (fun hc => hk hc.2), List.getElem?_replicate, if_neg hk,
      List.getElem?_map,
      List.getElem?_eq_none (by rw [List.length_range]; omega)]
    rfl

/-- The stored `results` of a completed job: the success entries of the
outcome table, in index order. -/
lemma process_results (proc : ℕ → String → Except String α) (contents : List String)
    (order : List ℕ) (hperm : order.Perm (List.range contents.length)) :
    (process_batch_async proc contents order).results
      = (List.range contents.length).filterMap (fun i =>
          match proc i (contents.getD i "") with
          | .ok v => some (SlotVal.success i v)
          | .error _ => none) := by
  show ((batchLoop proc contents order
      (List.replicate contents.length none, [], 0)).1.filterMap _) = _
  rw [process_slots proc contents order hperm, List.filterMap_map]
  congr 1
  funext i
  cases hpi : proc i (contents.getD i "") with
  | ok v =>
    rw [Function.comp_apply,
      show slotOf proc contents i = .success i v from by unfold slotOf; rw [hpi]]
  | error e =>
    rw [Function.comp_apply,
      show slotOf proc contents i = .failure i e from by unfold slotOf; rw [hpi]]

lemma filterMap_guard_eq_filter (p : ℕ → Bool) (l : List ℕ) :
    l.filterMap (fun i => if p i then some i else none) = l.filter p := by
  induction l with
  | nil => rfl
  | cons a l ih =>
    rw [List.filterMap_cons, List.filter_cons]
    by_cases hp : p a <;> simp [hp, ih]

lemma length_filterMap_eq_length_filter (f : α → Option β) (p : α → Bool)
    (hfp : ∀ a, (f a).isSome = p a) (l : List α) :
    (l.filterMap f).length = (l.filter p).length := by
  induction l with
  | nil => rfl
  | cons a l ih =>
    rw [List.filterMap_cons, List.filter_cons]
    cases hfa : f a with
    | none =>
      have : p a = false := by rw [← hfp a, hfa]; rfl
      simp [this, ih]
    | some b =>
      have : p a = true := by rw [← hfp a, hfa]; rfl
      simp [this, ih]

lemma length_filter_add_length_filter_not (p : α → Bool) (l : List α) :
    (l.filter p).length + (l.filter (fun a => !p a)).length = l.length := by
  induction l with
  | nil => rfl
  | cons a l ih =>
    rw [List.filter_cons, List.filter_cons]
    by_cases hp : p a <;> simp [hp] <;> omega

/-- C4 (amended): for every batch, each entry of the job's stored
`results` carries its pre-assigned index and is the successful outcome
of that index, and the stored indices are exactly the succeeding indices
in increasing order; hence `results[i]` corresponds to `contents[i]` for
batches with no failures, but error entries are filtered out of
`results`, shifting later entries leftward when failures occur. -/
theorem batch_results_indexing (proc : ℕ → String → Except String α)
    (contents : List String) (order : List ℕ)
    (hperm : order.Perm (List.range contents.length)) :
    ((process_batch_async proc contents order).results.map SlotVal.index
        = (List.range contents.length).filter
            (fun i => (proc i (contents.getD i "")).isOk)) ∧
    (∀ s ∈ (process_batch_async proc contents order).results,
      ∃ v, s = SlotVal.success s.index v ∧
        proc s.index (contents.getD s.index "") = .ok v) ∧
    ((∀ i, i < contents.length → (proc i (contents.getD i "")).isOk = true) →
      (process_batch_async proc contents order).results.map SlotVal.index
        = List.range contents.length) := by
  have hres := process_results proc contents order hperm
  have hmap : (process_batch_async proc contents order).results.map SlotVal.index
      = (List.range contents.length).filter
          (fun i => (proc i (contents.getD i "")).isOk) := by
    rw [hres, List.map_filterMap, ← filterMap_guard_eq_filter]
    congr 1
    funext i
    cases hpi : proc i (contents.getD i "") <;> rfl
  refine ⟨hmap, ?_, ?_⟩
  · intro s hs
    rw [hres] at hs
    obtain ⟨i, _, hsome⟩ := List.mem_filterMap.mp hs
    cases hpi : proc i (contents.getD i "") with
    | ok v =>
      rw [hpi] at hsome
      cases hsome
      exact ⟨v, rfl, hpi⟩
    | error e => rw [hpi] at hsome; cases hsome
  · intro hall
    rw [hmap]
    apply List.filter_eq_self.mpr
    intro i hi
    exact hall i (List.mem_range.mp hi)

/-- A per-item pipeline that fails on index 0 and succeeds elsewhere. -/
def c4proc : ℕ → String → Except String ℕ :=
  fun i _ => if i = 0 then .error "boom" else .ok 7

/-- C4 (counterexample): in the batch `["a", "b"]` where item 0 fails,
the job's stored results have exactly one entry, and the entry at
position 0 carries index 1 — it corresponds to `contents[1]`, not
`contents[0]`: stored results are compacted to successes only. -/
theorem batch_results_shift_counterexample :
    (process_batch_async c4proc ["a", "b"] [0, 1]).results.map SlotVal.index
        = [1] ∧ (1 : ℕ) ≠ 0 := by
  constructor
  · decide
  · decide

/-- C8: if exactly `k` of the `n` items raise during per-item
processing, the completed job records `processed_items = n`, exactly `k`
error entries (each carrying the failing index and that item's content
preview), exactly `n - k` successful entries in `results`, and status
`"completed"` — never `"failed"`. -/
theorem batch_partial_failure (proc : ℕ → String → Except String α)
    (contents : List String) (order : List ℕ)
    (hperm : order.Perm (List.range contents.length)) :
    (process_batch_async proc contents order).processed_items = contents.length ∧
    (process_batch_async proc contents order).errors.length
        = ((List.range contents.length).filter
            (fun i => !(proc i (contents.getD i "")).isOk)).length ∧
    (∀ e ∈ (process_batch_async proc contents order).errors,
      (proc e.index (contents.getD e.index "")).isOk = false ∧
        e.content_preview = contentPreview (contents.getD e.index "")) ∧
    (process_batch_async proc contents order).results.length
        = contents.length - ((List.range contents.length).filter
            (fun i => !(proc i (contents.getD i "")).isOk)).length ∧
    (process_batch_async proc contents order).status = "completed" := by
  obtain ⟨-, herr, hproc⟩ := batchLoop_spec proc contents order
    (List.replicate contents.length none) [] 0
  have horder : order.length = contents.length := by
    rw [hperm.length_eq, List.length_range]
  have herrs : (process_batch_async proc contents order).errors
      = order.filterMap (errOf proc contents) := by
    show (batchLoop proc contents order _).2.1 = _
    rw [herr, List.nil_append]
  have hfail : ∀ i, (errOf proc contents i).isSome
      = !(proc i (contents.getD i "")).isOk := by
    intro i
    unfold errOf
    cases proc i (contents.getD i "") <;> rfl
  refine ⟨?_, ?_, ?_, ?_, rfl⟩
  · show (batchLoop proc contents order _).2.2 = _
    rw [hproc, horder, Nat.zero_add]
  · rw [herrs, length_filterMap_eq_length_filter _ _ hfail,
      (hperm.filter _).length_eq]
  · intro e he
    rw [herrs] at he
    obtain ⟨i, _, hsome⟩ := List.mem_filterMap.mp he
    unfold errOf at hsome
    cases hpi : proc i (contents.getD i "") with
    | ok v => rw [hpi] at hsome; cases hsome
    | error msg =>
      rw [hpi] at hsome
      cases hsome
      exact ⟨by rw [hpi]; rfl, rfl⟩
  · rw [process_results proc contents order hperm,
      length_filterMap_eq_length_filter _
        (fun i => (proc i (contents.getD i "")).isOk)
        (fun i => by
          show (match proc i (contents.getD i "") with
              | Except.ok v => some (SlotVal.success i v)
              | Except.error _ => none).isSome
            = (proc i (contents.getD i "")).isOk
          cases proc i (contents.getD i "") <;> rfl)]
    have := length_filter_add_length_filter_not
      (fun i => (proc i (contents.getD i "")).isOk) (List.range contents.length)
    rw [List.length_range] at this
    omega

/-- A pipeline failing exactly on index 1 of three items. -/
def c8proc : ℕ → String → Except String ℕ :=
  fun i _ => if i = 1 then .error "classifier down" else .ok 40

/-- Witness for C8: three items, one failure, completion order
`[2, 0, 1]`. -/
theorem batch_partial_failure_witness :
    (process_batch_async c8proc ["x", "y", "z"] [2, 0, 1]).processed_items = 3 ∧
    (process_batch_async c8proc ["x", "y", "z"] [2, 0, 1]).errors.length
        = ((List.range 3).filter (fun i => !(c8proc i (["x", "y", "z"].getD i "")).isOk)).length ∧
    (process_batch_async c8proc ["x", "y", "z"] [2, 0, 1]).status = "completed" := by
  have h := batch_partial_failure c8proc ["x", "y", "z"] [2, 0, 1] (by decide)
  exact ⟨h.1, h.2.1, h.2.2.2.2⟩

/-- Witness for C4's amended statement on a concrete two-item batch. -/
theorem batch_results_indexing_witness :
    (process_batch_async c4proc ["a", "b"] [0, 1]).results.map SlotVal.index
      = (List.range 2).filter (fun i => (c4proc i (["a", "b"].getD i "")).isOk) :=
  (batch_results_indexing c4proc ["a", "b"] [0, 1] (by decide)).1

/-- Witness for C5's amended statement: on the concrete no-qualifier
input, the returned segment count is `min 3` of the semantic segment
count. -/
theorem importance_segmentation_selection_witness :
    (segment_content_importance impText impStrategy).length
      = min 3 (segment_content_semantic impText impStrategy).length :=
  ((importance_segmentation_selection impText impStrategy).2
    (by with_unfolding_all decide)).1

/-! ### Cache lemmas -/

/-- `find?` misses exactly when no element satisfies the key test. -/
lemma dictGet_eq_none_iff (k : String) (l : List (String × β)) :
    dictGet k l = none ↔ ∀ kv ∈ l, kv.1 ≠ k := by
  unfold dictGet
  rw [Option.map_eq_none', List.find?_eq_none]
  constructor
  · intro h kv hkv
    have := h kv hkv
    simpa using this
  · intro h kv hkv
    simpa using h kv hkv

/-- A successful `dictGet` returns the value of a pair of the list whose
key is `k`. -/
lemma dictGet_eq_some (k : String) (l : List (String × β)) (v : β)
    (h : dictGet k l = some v) : (k, v) ∈ l := by
  unfold dictGet at h
  rw [Option.map_eq_some'] at h
  obtain ⟨kv, hfind, hsnd⟩ := h
  have hk : kv.1 = k := by simpa using List.find?_some hfind
  have hmem := List.mem_of_find?_eq_some hfind
  have : kv = (k, v) := by
    cases kv
    simp only at hk hsnd
    rw [hk, hsnd]
  rwa [this] at hmem

lemma dictGet_remove_self (k : String) (st : VectorStore α) :
    dictGet k (remove_entry k st).entries = none := by
  rw [dictGet_eq_none_iff]
  intro kv hkv
  have := List.of_mem_filter hkv
  simpa using this

lemma find?_filter_ne (k k' : String) (hne : k ≠ k') (l : List (String × β)) :
    (l.filter (fun kv => kv.1 ≠ k')).find? (fun kv => kv.1 = k)
      = l.find? (fun kv => kv.1 = k) := by
  induction l with
  | nil => rfl
  | cons kv t ih =>
    rw [List.filter_cons]
    by_cases hkv : kv.1 = k'
    · have hd : (decide (kv.1 ≠ k')) = false := by simp [hkv]
      rw [hd, if_neg (by simp), ih, List.find?_cons]
      have hkvk : (decide (kv.1 = k)) = false := by
        simp only [decide_eq_false_iff_not]
        intro hc
        exact hne (hc ▸ hkv)
      rw [hkvk]
    · have hd : (decide (kv.1 ≠ k')) = true := by simp [hkv]
      rw [hd, if_pos rfl, List.find?_cons, List.find?_cons]
      cases hkvk : decide (kv.1 = k)
      · exact ih
      · rfl

lemma dictGet_remove_of_ne (k k' : String) (hne : k ≠ k') (st : VectorStore α) :
    dictGet k (remove_entry k' st).entries = dictGet k st.entries := by
  unfold dictGet remove_entry
  rw [find?_filter_ne k k' hne st.entries]

lemma dictGet_foldl_remove_none (keys : List String) (st : VectorStore α)
    (k : String) (h : dictGet k st.entries = none) :
    dictGet k (keys.foldl (fun s k' => remove_entry k' s) st).entries = none := by
  induction keys generalizing st with
  | nil => exact h
  | cons k' rest ih =>
    rw [List.foldl_cons]
    apply ih
    by_cases hne : k = k'
    · subst hne; exact dictGet_remove_self k st
    · rw [dictGet_remove_of_ne k k' hne]; exact h

lemma dictGet_foldl_remove_mem (keys : List String) (st : VectorStore α)
    (k : String) (hk : k ∈ keys) :
    dictGet k (keys.foldl (fun s k' => remove_entry k' s) st).entries = none := by
  induction keys generalizing st with
  | nil => cases hk
  | cons k' rest ih =>
    rw [List.foldl_cons]
    rcases List.mem_cons.mp hk with rfl | hmem
    · exact dictGet_foldl_remove_none rest _ k (dictGet_remove_self k st)
    · exact ih _ hmem

lemma dictGet_foldl_remove_not_mem (keys : List String) (st : VectorStore α)
    (k : String) (hk : k ∉ keys) :
    dictGet k (keys.foldl (fun s k' => remove_entry k' s) st).entries
      = dictGet k st.entries := by
  induction keys generalizing st with
  | nil => rfl
  | cons k' rest ih =>
    rw [List.foldl_cons,
      ih (remove_entry k' st) (fun hc => hk (List.mem_cons_of_mem k' hc)),
      dictGet_remove_of_ne k k' (fun hc => hk (hc ▸ List.mem_cons_self k' rest))]

/-- With duplicate-free keys, all pairs sharing a key share the value. -/
lemma nodup_keys_value_unique (l : List (String × β))
    (hnd : (l.map Prod.fst).Nodup) (k : String) (a : β) (kv : String × β)
    (h1 : (k, a) ∈ l) (h2 : kv ∈ l) (hk : kv.1 = k) : kv.2 = a := by
  induction l with
  | nil => cases h1
  | cons hd t ih =>
    rw [List.map_cons, List.nodup_cons] at hnd
    rcases List.mem_cons.mp h1 with heq | h1t
    · rcases List.mem_cons.mp h2 with rfl | h2t
      · rw [← heq]
      · exfalso
        apply hnd.1
        have hmt : kv.1 ∈ t.map Prod.fst := List.mem_map_of_mem Prod.fst h2t
        rw [hk] at hmt
        rw [← heq]
        exact hmt
    · rcases List.mem_cons.mp h2 with rfl | h2t
      · exfalso
        apply hnd.1
        have hmt : (k, a).1 ∈ t.map Prod.fst := List.mem_map_of_mem Prod.fst h1t
        rw [hk]
        exact hmt
      · exact ih hnd.2 h1t h2t

/-- `find?` through a key-preserving map. -/
lemma find?_map_keypreserving (g : (String × β) → (String × β))
    (hg : ∀ kv, (g kv).1 = kv.1) (k : String) (l : List (String × β)) :
    (l.map g).find? (fun kv => kv.1 = k) = Option.map g (l.find? (fun kv => kv.1 = k)) := by
  induction l with
  | nil => rfl
  | cons kv t ih =>
    rw [List.map_cons, List.find?_cons, List.find?_cons]
    have : (decide ((g kv).1 = k)) = (decide (kv.1 = k)) := by rw [hg kv]
    rw [this]
    cases decide (kv.1 = k)
    · exact ih
    · rfl

/-- The expiry sweep drops exactly the active entries whose age strictly
exceeds their ttl; the `cleanup_removes_*` lemmas below unfold this. -/
lemma cleanup_expired_entries_eq (now : ℚ) (st : VectorStore α) :
    cleanup_expired_entries now st
      = ((st.entries.filter (fun kv => isExpiredAt now kv.2)).map Prod.fst).foldl
          (fun s k => remove_entry k s)
          { st with entries := st.entries.map (fun kv =>
              if isExpiredAt now kv.2 then (kv.1, { kv.2 with status := .expired })
              else kv) } := rfl

lemma cleanup_removes_expired (now : ℚ) (st : VectorStore α) (k : String)
    (e : CacheEntry α) (hget : dictGet k st.entries = some e)
    (hexp : isExpiredAt now e) :
    dictGet k (cleanup_expired_entries now st).entries = none := by
  rw [cleanup_expired_entries_eq]
  apply dictGet_foldl_remove_mem
  have hmem := dictGet_eq_some k st.entries e hget
  have : (k, e) ∈ st.entries.filter (fun kv => isExpiredAt now kv.2) :=
    List.mem_filter.mpr ⟨hmem, by simpa using hexp⟩
  exact List.mem_map_of_mem Prod.fst this

lemma cleanup_preserves_live (now : ℚ) (st : VectorStore α) (k : String)
    (e : CacheEntry α) (hnd : (st.entries.map Prod.fst).Nodup)
    (hget : dictGet k st.entries = some e) (hlive : ¬ isExpiredAt now e) :
    dictGet k (cleanup_expired_entries now st).entries = some e := by
  rw [cleanup_expired_entries_eq]
  have hmem := dictGet_eq_some k st.entries e hget
  have hnotexp : k ∉ (st.entries.filter (fun kv => isExpiredAt now kv.2)).map Prod.fst := by
    intro hc
    obtain ⟨kv, hkv, hk⟩ := List.mem_map.mp hc
    have hkvmem := List.mem_filter.mp hkv
    have : kv.2 = e := nodup_keys_value_unique st.entries hnd k e kv hmem hkvmem.1 hk
    exact hlive (this ▸ (by simpa using hkvmem.2))
  rw [dictGet_foldl_remove_not_mem _ _ _ hnotexp]
  show Option.map Prod.snd (List.find? _ (st.entries.map _)) = some e
  rw [find?_map_keypreserving _ (fun kv => by
    by_cases hkv : isExpiredAt now kv.2 <;> simp [hkv])]
  unfold dictGet at hget
  rw [Option.map_eq_some'] at hget
  obtain ⟨kv, hfind, hsnd⟩ := hget
  rw [hfind]
  have hkv2 : ¬ isExpiredAt now kv.2 := by rw [hsnd]; exact hlive
  show some ((if isExpiredAt now kv.2 then
      (kv.1, { kv.2 with status := CacheStatus.expired }) else kv).2) = some e
  rw [if_neg hkv2, hsnd]

/-- A successful exact-match phase returns an entry stored under the
exact key with status `ACTIVE`. -/
lemma exactLookup_some (hkey : String → String) (st : VectorStore α)
    (content : String) (e : CacheEntry α)
    (h : exactLookup hkey st content = some e) :
    dictGet (generate_cache_key hkey content .exact_match) st.entries = some e ∧
      e.status = CacheStatus.active := by
  unfold exactLookup at h
  split at h
  next e' hek =>
    split at h
    next hst => cases h; exact ⟨hek, hst⟩
    next hst => cases h
  next hek => cases h

/-- A successful semantic phase returns an entry stored under the
similar key with status `ACTIVE`. -/
lemma semanticLookup_some (embOf : String → List ℚ) (sim : List ℚ → List ℚ → ℚ)
    (st : VectorStore α) (content : String) (thr : ℚ) (k : String) (sc : ℚ)
    (e : CacheEntry α) (h : semanticLookup embOf sim st content thr = some (k, sc, e)) :
    dictGet k st.entries = some e ∧ e.status = CacheStatus.active := by
  unfold semanticLookup at h
  split at h
  next k' sc' tl hsearch =>
    split at h
    next e' hek =>
      split at h
      next hst =>
        cases h
        exact ⟨hek, hst⟩
      next hst => cases h
    next hek => cases h
  next hsearch => cases h

/-- A hit of `get_cached_result` always returns an entry that is stored
and `ACTIVE` in the pre-read store (with its read-path bump applied); no
age test is made on the read path. -/
lemma cache_hit_entry_active (hkey : String → String) (embOf : String → List ℚ)
    (sim : List ℚ → List ℚ → ℚ) (now : ℚ) (st : VectorStore α)
    (content : String) (strategy : CacheStrategy) (thr : Option ℚ)
    (hhit : (get_cached_result hkey embOf sim now st content strategy thr).1.hit
      = true) :
    ∃ k e, dictGet k st.entries = some e ∧ e.status = CacheStatus.active ∧
      (get_cached_result hkey embOf sim now st content strategy thr).1.cache_entry
        = some (bumpEntry now e) := by
  unfold get_cached_result at hhit ⊢
  cases hex : exactLookup hkey st content with
  | some e =>
    obtain ⟨hget, hst⟩ := exactLookup_some hkey st content e hex
    exact ⟨generate_cache_key hkey content .exact_match, e, hget, hst, rfl⟩
  | none =>
    cases hsem : (if strategy = CacheStrategy.semantic_similarity ∨
        strategy = CacheStrategy.hybrid then
      semanticLookup embOf sim st content
        (thr.getD default_similarity_threshold)
    else none) with
    | none =>
      rw [hex] at hhit
      rw [hsem] at hhit
      exact Bool.noConfusion hhit
    | some r =>
      obtain ⟨k, sc, e⟩ := r
      have hsemlk : semanticLookup embOf sim st content
          (thr.getD default_similarity_threshold) = some (k, sc, e) := by
        by_cases hstrat : strategy = CacheStrategy.semantic_similarity ∨
            strategy = CacheStrategy.hybrid
        · rwa [if_pos hstrat] at hsem
        · rw [if_neg hstrat] at hsem; cases hsem
      obtain ⟨hget, hst⟩ := semanticLookup_some embOf sim st content _ k sc e hsemlk
      exact ⟨k, e, hget, hst, rfl⟩

/-- C2 (amended): `get_cached_result` returns an entry only while its
status is `ACTIVE`; it performs no age check of its own.  TTL expiry is
enforced by the periodic sweep `_cleanup_expired_entries`, which removes
exactly the active entries whose age strictly exceeds their ttl (and,
for duplicate-free keys, leaves every other entry in place); only after
such a sweep is a `get` of the expired entry guaranteed to miss it. -/
theorem cache_ttl_semantics :
    (∀ (α : Type) (hkey : String → String) (embOf : String → List ℚ)
        (sim : List ℚ → List ℚ → ℚ) (now : ℚ) (st : VectorStore α)
        (content : String) (strategy : CacheStrategy) (thr : Option ℚ),
      (get_cached_result hkey embOf sim now st content strategy thr).1.hit = true →
        ∃ k e, dictGet k st.entries = some e ∧ e.status = CacheStatus.active ∧
          (get_cached_result hkey embOf sim now st content strategy thr).1.cache_entry
            = some (bumpEntry now e)) ∧
    (∀ (α : Type) (now : ℚ) (st : VectorStore α) (k : String) (e : CacheEntry α),
      dictGet k st.entries = some e → isExpiredAt now e →
        dictGet k (cleanup_expired_entries now st).entries = none) ∧
    (∀ (α : Type) (now : ℚ) (st : VectorStore α) (k : String) (e : CacheEntry α),
      (st.entries.map Prod.fst).Nodup →
      dictGet k st.entries = some e → ¬ isExpiredAt now e →
        dictGet k (cleanup_expired_entries now st).entries = some e) :=
  ⟨fun _ hkey embOf sim now st content strategy thr hhit =>
     cache_hit_entry_active hkey embOf sim now st content strategy thr hhit,
   fun _ now st k e h1 h2 => cleanup_removes_expired now st k e h1 h2,
   fun _ now st k e hnd h1 h2 => cleanup_preserves_live now st k e hnd h1 h2⟩

/-- An entry stored at time 0 with a ttl of 10 seconds. -/
def c2Entry : CacheEntry ℕ :=
  { cache_key := "c"
  , content_hash := "c"
  , original_content := "c"
  , moderation_result := 7
  , embedding := []
  , similarity_threshold := 0.85
  , created_at := 0
  , last_accessed := 0
  , access_count := 0
  , ttl := 10
  , status := .active }

def c2Store : VectorStore ℕ := ⟨[("c", c2Entry)], []⟩

/-- C2 (counterexample): a `get` of `"c"` at time 20 — twice the ttl
after the store, with no cleanup sweep in between — still returns a hit,
because the read path checks only the status flag and the sweep has not
yet marked the entry. -/
theorem cache_expiry_counterexample :
    (get_cached_result id (fun _ => []) (fun _ _ => 0) 20 c2Store "c"
        CacheStrategy.hybrid none).1.hit = true ∧
    (20 : ℚ) - c2Entry.created_at > c2Entry.ttl := by
  constructor
  · with_unfolding_all decide
  · show (20 : ℚ) - 0 > 10
    norm_num

/-- Witness for C2's amended statement: the sweep at time 20 removes the
expired entry, after which the exact lookup misses. -/
theorem cache_ttl_semantics_witness :
    dictGet "c" (cleanup_expired_entries 20 c2Store).entries = none := by
  apply cache_ttl_semantics.2.1 ℕ 20 c2Store "c" c2Entry
  · rfl
  · constructor
    · rfl
    · show (20 : ℚ) - 0 > 10
      norm_num

end Fist
